import Mathlib

/-!
Verification of the cross-device sign-in ("login with QR") subsystem of a
Matrix chat client.

Part 1 embeds the utility `randB64Bytes` (source: a small node utility that
returns `crypto.randomBytes(numBytes).toString("base64").replace(/=*$/, "")`).
The random byte production is external; we model it by quantifying over the
byte list produced, and embed the base64 rendering and the trailing-padding
strip faithfully.

Part 2 embeds the sign-in orchestrator state machine.  The orchestrator
component itself is not among the provided sources (only its test suite is),
so it is modelled from the specification's state machine and contracts, with
observable behaviour cross-checked against the test suite.
-/

/-- The 64-character base64 alphabet used by node's `Buffer.toString("base64")`. -/
def b64Alphabet : List Char :=
  "ABCDEFGHIJKLMNOPQRSTUVWXYZabcdefghijklmnopqrstuvwxyz0123456789+/".toList

/-- Character for a 6-bit group (defensively reduced mod 64; on actual
sextets the reduction is the identity). -/
def b64Char (n : Nat) : Char := b64Alphabet.getD (n % 64) 'A'

/-- Base64 rendering of a byte list, including the `=` padding, exactly as
`Buffer.toString("base64")` produces it: groups of three bytes become four
alphabet characters; a final group of one byte becomes two characters plus
`==`; a final group of two bytes becomes three characters plus `=`. -/
def b64Encode : List Nat → List Char
  | [] => []
  | [a] => [b64Char (a / 4), b64Char (a % 4 * 16), '=', '=']
  | [a, b] => [b64Char (a / 4), b64Char (a % 4 * 16 + b / 16), b64Char (b % 16 * 4), '=']
  | a :: b :: c :: rest =>
    b64Char (a / 4) :: b64Char (a % 4 * 16 + b / 16) ::
      b64Char (b % 16 * 4 + c / 64) :: b64Char (c % 64) :: b64Encode rest

/-- The padding-free part of the base64 rendering. -/
def b64Body : List Nat → List Char
  | [] => []
  | [a] => [b64Char (a / 4), b64Char (a % 4 * 16)]
  | [a, b] => [b64Char (a / 4), b64Char (a % 4 * 16 + b / 16), b64Char (b % 16 * 4)]
  | a :: b :: c :: rest =>
    b64Char (a / 4) :: b64Char (a % 4 * 16 + b / 16) ::
      b64Char (b % 16 * 4 + c / 64) :: b64Char (c % 64) :: b64Body rest

/-- The effect of `.replace(/=*$/, "")`: remove the maximal trailing run of
`=` characters. -/
def stripTrailingEq (cs : List Char) : List Char :=
  (cs.reverse.dropWhile (fun c => c == '=')).reverse

/-- Embedding of `randB64Bytes`, with the `crypto.randomBytes(numBytes)`
output modelled as an explicit byte-list argument. -/
def randB64Bytes (bytes : List Nat) : String :=
  String.mk (stripTrailingEq (b64Encode bytes))

lemma b64Char_ne_eqChar (n : Nat) : b64Char n ≠ '=' := by
  have h : n % 64 < 64 := Nat.mod_lt _ (by norm_num)
  have hd : ∀ i : Fin 64, b64Alphabet.getD i.val 'A' ≠ '=' := by decide
  exact hd ⟨n % 64, h⟩

lemma b64Char_beq_eqChar (n : Nat) : (b64Char n == '=') = false :=
  beq_eq_false_iff_ne.mpr (b64Char_ne_eqChar n)

lemma dropWhile_append_of_ne_nil {p : Char → Bool} {l1 l2 : List Char}
    (h : l1.dropWhile p ≠ []) :
    (l1 ++ l2).dropWhile p = l1.dropWhile p ++ l2 := by
  induction l1 with
  | nil => simp at h
  | cons x xs ih =>
    by_cases hx : p x
    · rw [List.dropWhile_cons_of_pos hx] at h
      rw [List.cons_append, List.dropWhile_cons_of_pos hx, ih h,
        List.dropWhile_cons_of_pos hx]
    · have hx' : p x = false := by simpa using hx
      rw [List.cons_append, List.dropWhile_cons_of_neg (by simp [hx']),
        List.dropWhile_cons_of_neg (by simp [hx'])]
      rfl

lemma b64Body_ne_nil : ∀ bs : List Nat, bs ≠ [] → b64Body bs ≠ []
  | [], h => absurd rfl h
  | [_], _ => by simp [b64Body]
  | [_, _], _ => by simp [b64Body]
  | _ :: _ :: _ :: _, _ => by simp [b64Body]

lemma strip_b64Encode : ∀ bs : List Nat, stripTrailingEq (b64Encode bs) = b64Body bs
  | [] => by simp [b64Encode, b64Body, stripTrailingEq]
  | [a] => by
    simp [b64Encode, b64Body, stripTrailingEq, List.dropWhile, b64Char_beq_eqChar]
  | [a, b] => by
    simp [b64Encode, b64Body, stripTrailingEq, List.dropWhile, b64Char_beq_eqChar]
  | a :: b :: c :: rest => by
    have ih := strip_b64Encode rest
    rcases h : rest with _ | ⟨r, rs⟩
    · simp [b64Encode, b64Body, stripTrailingEq, List.dropWhile, b64Char_beq_eqChar]
    · rw [← h]
      have hne : rest ≠ [] := by simp [h]
      have hdw : (b64Encode rest).reverse.dropWhile (fun c => c == '=') =
          (b64Body rest).reverse := by
        have := congrArg List.reverse ih
        simpa [stripTrailingEq] using this
      have hbody : b64Body rest ≠ [] := b64Body_ne_nil rest hne
      have hdwne : (b64Encode rest).reverse.dropWhile (fun c => c == '=') ≠ [] := by
        rw [hdw]; simpa using hbody
      show stripTrailingEq (b64Encode (a :: b :: c :: rest)) = b64Body (a :: b :: c :: rest)
      rw [b64Encode, b64Body, stripTrailingEq]
      simp only [List.reverse_cons, List.append_assoc]
      rw [show (b64Encode rest).reverse ++
          ([b64Char (c % 64)] ++ ([b64Char (b % 16 * 4 + c / 64)] ++
            ([b64Char (a % 4 * 16 + b / 16)] ++ [b64Char (a / 4)]))) =
          (b64Encode rest).reverse ++
          [b64Char (c % 64), b64Char (b % 16 * 4 + c / 64),
           b64Char (a % 4 * 16 + b / 16), b64Char (a / 4)] by simp]
      rw [dropWhile_append_of_ne_nil hdwne, hdw]
      simp

lemma eqChar_not_mem_b64Body : ∀ bs : List Nat, '=' ∉ b64Body bs
  | [] => by simp [b64Body]
  | [a] => by
    simp only [b64Body, List.mem_cons, List.not_mem_nil, or_false]
    push_neg
    exact ⟨(b64Char_ne_eqChar _).symm, (b64Char_ne_eqChar _).symm⟩
  | [a, b] => by
    simp only [b64Body, List.mem_cons, List.not_mem_nil, or_false]
    push_neg
    exact ⟨(b64Char_ne_eqChar _).symm, (b64Char_ne_eqChar _).symm, (b64Char_ne_eqChar _).symm⟩
  | a :: b :: c :: rest => by
    have ih := eqChar_not_mem_b64Body rest
    simp only [b64Body, List.mem_cons]
    push_neg
    exact ⟨(b64Char_ne_eqChar _).symm, (b64Char_ne_eqChar _).symm,
      (b64Char_ne_eqChar _).symm, (b64Char_ne_eqChar _).symm, ih⟩

/-- Claim C10: for every byte list (modelling the `numBytes` random bytes),
`randB64Bytes` returns the base64 encoding with all trailing `=` padding
characters stripped — its characters are exactly the padding-free base64
body — and in particular the returned string never contains `=`. -/
theorem randB64Bytes_no_padding (bytes : List Nat) :
    (randB64Bytes bytes).data = b64Body bytes ∧ '=' ∉ (randB64Bytes bytes).data := by
  have h : (randB64Bytes bytes).data = b64Body bytes := by
    simp [randB64Bytes, strip_b64Encode]
  exact ⟨h, h ▸ eqChar_not_mem_b64Body bytes⟩

/-!
Part 2: the sign-in orchestrator.

Modelled from the spec: the `LoginWithQR` orchestrator component is not among
the provided sources (only its test suite is), so the phase state machine of
spec section 4.1, the session contracts of sections 4.2/4.3, the
error-classification rule of section 4.1/7 and the disposed-flag discipline of
section 5 are embedded here as executable definitions.  Each asynchronous
session operation is modelled by its outcome (resolved value, rejection, or
never-settling), supplied through an environment record; user clicks are
supplied as a list consumed at the points where the machine waits for input.
At the `Error` phase a further click closes the attempt and notifies the
caller with `false` (spec section 7: failures are terminal for the current
session, the caller may restart a fresh attempt); the optional in-place retry
transition is not modelled.
-/

namespace LoginWithQR

/-- Phases of the orchestrator (spec section 3). -/
inductive Phase
  | Loading
  | ShowingQR
  | LegacyConnected
  | OutOfBandConfirmation
  | WaitingForDevice
  | Verifying
  | Error
  deriving Repr, DecidableEq

/-- Failure taxonomy (spec section 3): legacy kinds, client-level kinds
shared by both protocols, modern-protocol kinds, plus the locally
synthesized `rate_limited` kind. -/
inductive FailureReason
  | LegacyUserCancelled
  | HomeserverLacksSupport
  | Unknown
  | Expired
  | MSC4108UserCancelled
  | RateLimited
  deriving Repr, DecidableEq

/-- User-initiated input events (spec section 3). -/
inductive Click
  | Approve
  | Decline
  | Cancel
  | Back
  deriving Repr, DecidableEq

/-- A rejection raised by a session operation: it may carry an HTTP status
and/or a protocol-native failure reason. -/
structure RawError where
  httpStatus : Option Nat
  reason : Option FailureReason
  deriving Repr, DecidableEq

/-- Outcome of an asynchronous session operation: resolved, rejected, or
never settling (in flight forever from the orchestrator's point of view). -/
inductive Async (α : Type)
  | ok (a : α)
  | err (e : RawError)
  | pending

def Async.isPending {α : Type} : Async α → Bool
  | .pending => true
  | _ => false

/-- Observable events of one sign-in attempt, in order of occurrence:
phase transitions, session-method calls, the browser `open` call, and the
completion callback. -/
inductive Event
  | phase (p : Phase)
  | codeShown (code : String)
  | cancelCalled (r : FailureReason)
  | closeCalled
  | approveCalled (token : String)
  | verifyCalled
  | declineCalled
  | openedUri (uri : String)
  | completed (b : Bool)
  deriving Repr, DecidableEq

def Event.isCompleted : Event → Bool
  | .completed _ => true
  | _ => false

def Event.isPhase : Event → Bool
  | .phase _ => true
  | _ => false

def Event.isCancel : Event → Bool
  | .cancelCalled _ => true
  | _ => false

def Event.isApprove : Event → Bool
  | .approveCalled _ => true
  | _ => false

def Event.isVerify : Event → Bool
  | .verifyCalled => true
  | _ => false

def Event.isOpen : Event → Bool
  | .openedUri _ => true
  | _ => false

/-- Orchestrator state: current phase, the failure reason surfaced at the
`Error` phase, the disposed (torn-down) flag, and the ordered event log. -/
structure OrchState where
  phase : Phase
  failureReason : Option FailureReason
  disposed : Bool
  events : List Event
  deriving Repr, DecidableEq

/-- Configuration (spec section 6): protocol variant and whether end-to-end
crypto is enabled on the existing device. -/
structure Config where
  legacy : Bool
  cryptoEnabled : Bool
  deriving Repr, DecidableEq

/-- Environment of one attempt: the outcome of every asynchronous session or
client operation the orchestrator may await, plus the generated pairing code. -/
structure Env where
  generateCode : Async Unit
  code : String
  startAfterShowingCode : Async String
  requestLoginToken : Async String
  approveLoginOnExistingDevice : Async String
  verifyNewDeviceOnExistingDevice : Async Unit
  declineLoginOnExistingDevice : Async Unit
  negotiateProtocols : Async Unit
  deviceAuthorizationGrant : Async (Option String)
  shareSecrets : Async Unit

/-- True when no operation of the environment stays in flight forever. -/
def envSettled (env : Env) : Bool :=
  !env.generateCode.isPending && !env.startAfterShowingCode.isPending &&
  !env.requestLoginToken.isPending && !env.approveLoginOnExistingDevice.isPending &&
  !env.verifyNewDeviceOnExistingDevice.isPending &&
  !env.declineLoginOnExistingDevice.isPending && !env.negotiateProtocols.isPending &&
  !env.deviceAuthorizationGrant.isPending && !env.shareSecrets.isPending

/-- The clicks the state machine accepts at its decision phase
(`LegacyConnected` in legacy mode, `OutOfBandConfirmation` in modern mode). -/
def goodClick (legacy : Bool) : Click → Bool
  | .Approve => true
  | .Decline => legacy
  | .Cancel => !legacy
  | .Back => false

/-- Error classifier (spec sections 4.1 and 7): HTTP 429 becomes the locally
synthesized `rate_limited`; a protocol-native reason raised by the session is
passed through unchanged; anything else becomes the given generic kind. -/
def classify (generic : FailureReason) (e : RawError) : FailureReason :=
  if e.httpStatus = some 429 then FailureReason.RateLimited
  else
    match e.reason with
    | some r => r
    | none => generic

/-- Record an event, discarded when the component is disposed. -/
def emit (s : OrchState) (e : Event) : OrchState :=
  if s.disposed then s else { s with events := s.events ++ [e] }

/-- Phase transition; checked against the disposed flag first (spec
section 5: no state update after disposal). -/
def setPhase (s : OrchState) (p : Phase) : OrchState :=
  if s.disposed then s
  else { s with phase := p, events := s.events ++ [Event.phase p] }

/-- Enter the `Error` phase carrying a failure reason. -/
def errorOut (s : OrchState) (r : FailureReason) : OrchState :=
  if s.disposed then s
  else { s with phase := Phase.Error, failureReason := some r,
                events := s.events ++ [Event.phase Phase.Error] }

/-- Invoke the completion callback. -/
def finish (s : OrchState) (b : Bool) : OrchState := emit s (Event.completed b)

/-- At the `Error` phase, a further click closes the attempt and notifies the
caller with `false`. -/
def dismissError (clicks : List Click) (s : OrchState) : OrchState :=
  match clicks with
  | [] => s
  | _ :: _ => finish s false

/-- Legacy: device verification after approval (crypto enabled): enter
`Verifying`, call `verifyNewDeviceOnExistingDevice`, and on success close the
session and complete with `true`. -/
def legacyVerify (env : Env) (clicks : List Click) (s : OrchState) : OrchState :=
  let s1 := emit (setPhase s Phase.Verifying) Event.verifyCalled
  match env.verifyNewDeviceOnExistingDevice with
  | .pending => s1
  | .err e => dismissError clicks (errorOut s1 (classify FailureReason.Unknown e))
  | .ok _ => finish (emit s1 Event.closeCalled) true

/-- Legacy: Approve at `LegacyConnected`: request a login token, enter
`WaitingForDevice`, call `approveLoginOnExistingDevice` with the issued
token, then either verify the new device (crypto enabled) or close and
complete with `true`. -/
def legacyApprove (cfg : Config) (env : Env) (clicks : List Click) (s : OrchState) :
    OrchState :=
  match env.requestLoginToken with
  | .pending => s
  | .err e => dismissError clicks (errorOut s (classify FailureReason.Unknown e))
  | .ok token =>
    let s1 := emit (setPhase s Phase.WaitingForDevice) (Event.approveCalled token)
    match env.approveLoginOnExistingDevice with
    | .pending => s1
    | .err e => dismissError clicks (errorOut s1 (classify FailureReason.Unknown e))
    | .ok _ =>
      if cfg.cryptoEnabled then legacyVerify env clicks s1
      else finish (emit s1 Event.closeCalled) true

/-- Legacy: Decline at `LegacyConnected`: call
`declineLoginOnExistingDevice` and complete with `false`. -/
def legacyDecline (env : Env) (clicks : List Click) (s : OrchState) : OrchState :=
  let s1 := emit s Event.declineCalled
  match env.declineLoginOnExistingDevice with
  | .pending => s1
  | .err e => dismissError clicks (errorOut s1 (classify FailureReason.Unknown e))
  | .ok _ => finish s1 false

/-- Legacy: wait for a click at the `LegacyConnected` phase. -/
def legacyConnected (cfg : Config) (env : Env) (clicks : List Click) (s : OrchState) :
    OrchState :=
  match clicks with
  | [] => s
  | Click.Approve :: rest => legacyApprove cfg env rest s
  | Click.Decline :: rest => legacyDecline env rest s
  | _ :: _ => s

/-- Legacy: at `ShowingQR`, await the peer (`startAfterShowingCode`); while
it is in flight a Back click cancels with the legacy `UserCancelled` reason
and completes with `false`; its rejection is classified; its resolution
yields the `LegacyConnected` phase. -/
def legacyShowingQR (cfg : Config) (env : Env) (clicks : List Click) (s : OrchState) :
    OrchState :=
  match env.startAfterShowingCode with
  | .pending =>
    match clicks with
    | Click.Back :: _ =>
      finish (emit s (Event.cancelCalled FailureReason.LegacyUserCancelled)) false
    | _ => s
  | .err e => dismissError clicks (errorOut s (classify FailureReason.Unknown e))
  | .ok _digits => legacyConnected cfg env clicks (setPhase s Phase.LegacyConnected)

/-- Modelled from the spec: the legacy mount sequence of the missing
orchestrator component — `Loading`, generate the code (failure surfaces as
`HomeserverLacksSupport` and no code is shown), then show the code at
`ShowingQR`. -/
def legacyMount (cfg : Config) (env : Env) (clicks : List Click) (s0 : OrchState) :
    OrchState :=
  let s := setPhase s0 Phase.Loading
  match env.generateCode with
  | .pending => s
  | .err _ => dismissError clicks (errorOut s FailureReason.HomeserverLacksSupport)
  | .ok _ =>
    legacyShowingQR cfg env clicks (emit (setPhase s Phase.ShowingQR) (Event.codeShown env.code))

/-- Modern: failures cancel the session with the mapped reason and enter the
`Error` phase carrying it. -/
def modernErrorOut (s : OrchState) (r : FailureReason) : OrchState :=
  errorOut (emit s (Event.cancelCalled r)) r

/-- Modern: after Approve, await `shareSecrets`; success closes the session
and completes with `true`. -/
def modernWaitForSecrets (env : Env) (clicks : List Click) (s : OrchState) : OrchState :=
  match env.shareSecrets with
  | .pending => s
  | .err e => dismissError clicks (modernErrorOut s (classify FailureReason.Unknown e))
  | .ok _ => finish (emit s Event.closeCalled) true

/-- Modern: wait for a click at `OutOfBandConfirmation`: Approve opens the
verification URI (when one was returned) in a new browsing context, enters
`WaitingForDevice` and shares secrets; Cancel cancels with the
modern-protocol `UserCancelled` reason and completes with `false`. -/
def modernOutOfBand (env : Env) (clicks : List Click) (uri : Option String)
    (s : OrchState) : OrchState :=
  match clicks with
  | [] => s
  | Click.Approve :: rest =>
    let s1 := match uri with
      | some u => emit s (Event.openedUri u)
      | none => s
    modernWaitForSecrets env rest (setPhase s1 Phase.WaitingForDevice)
  | Click.Cancel :: _ =>
    finish (emit s (Event.cancelCalled FailureReason.MSC4108UserCancelled)) false
  | _ :: _ => s

/-- Modern: at `ShowingQR`, negotiate protocols (a Back click while the
negotiation is in flight cancels with the legacy `UserCancelled` reason, as
the component reuses it there), then request the device-authorization grant
and enter `OutOfBandConfirmation`. -/
def modernShowingQR (env : Env) (clicks : List Click) (s : OrchState) : OrchState :=
  match env.negotiateProtocols with
  | .pending =>
    match clicks with
    | Click.Back :: _ =>
      finish (emit s (Event.cancelCalled FailureReason.LegacyUserCancelled)) false
    | _ => s
  | .err e => dismissError clicks (modernErrorOut s (classify FailureReason.Unknown e))
  | .ok _ =>
    match env.deviceAuthorizationGrant with
    | .pending => s
    | .err e => dismissError clicks (modernErrorOut s (classify FailureReason.Unknown e))
    | .ok uri => modernOutOfBand env clicks uri (setPhase s Phase.OutOfBandConfirmation)

/-- Modelled from the spec: the modern mount sequence of the missing
orchestrator component. -/
def modernMount (env : Env) (clicks : List Click) (s0 : OrchState) : OrchState :=
  let s := setPhase s0 Phase.Loading
  match env.generateCode with
  | .pending => s
  | .err _ => dismissError clicks (errorOut s FailureReason.HomeserverLacksSupport)
  | .ok _ => modernShowingQR env clicks (setPhase s Phase.ShowingQR)

/-- Fresh, not-yet-mounted state. -/
def initState : OrchState :=
  { phase := Phase.Loading, failureReason := none, disposed := false, events := [] }

/-- Modelled from the spec: one full sign-in attempt of the `LoginWithQR`
orchestrator, whose component source is missing (only its test suite is
provided); it drives the section 4.1 state machine from mount, in the
protocol variant selected by the configuration. -/
def runAttempt (cfg : Config) (env : Env) (clicks : List Click) : OrchState :=
  if cfg.legacy then legacyMount cfg env clicks initState
  else modernMount env clicks initState

/-- Completion-callback events of an attempt, in order. -/
def completions (s : OrchState) : List Event := s.events.filter Event.isCompleted

/-- Environment in which every operation resolves, used to instantiate the
theorems below at concrete inputs. -/
def wEnvOk : Env :=
  { generateCode := Async.ok (), code := "mock-code",
    startAfterShowingCode := Async.ok "digits",
    requestLoginToken := Async.ok "token",
    approveLoginOnExistingDevice := Async.ok "device",
    verifyNewDeviceOnExistingDevice := Async.ok (),
    declineLoginOnExistingDevice := Async.ok (),
    negotiateProtocols := Async.ok (),
    deviceAuthorizationGrant := Async.ok (some "uri"),
    shareSecrets := Async.ok () }

/-- Environment in which the peer-wait and the protocol negotiation stay in
flight forever. -/
def wEnvPend : Env :=
  { wEnvOk with startAfterShowingCode := Async.pending,
                negotiateProtocols := Async.pending }

/-- Environment in which the login-token request rejects with HTTP 429. -/
def wEnv429 : Env :=
  { wEnvOk with requestLoginToken := Async.err { httpStatus := some 429, reason := none } }

/-- Environment in which code generation rejects. -/
def wEnvNoGen : Env :=
  { wEnvOk with generateCode := Async.err { httpStatus := none, reason := none } }

/-- Claim C2: clicking Approve at the legacy `Connected` phase with a
successful token request calls `approveLoginOnExistingDevice` with the issued
token; with crypto disabled the attempt completes with `true` and the
`Verifying` phase is never entered; with crypto enabled the `Verifying` phase
is entered before the completion with `true` and
`verifyNewDeviceOnExistingDevice` is called exactly once (the full event
traces of both runs are stated, which exhibits the required ordering). -/
theorem approve_connected_legacy (env : Env) (d tok dev : String) (rest : List Click)
    (hg : env.generateCode = Async.ok ())
    (hs : env.startAfterShowingCode = Async.ok d)
    (ht : env.requestLoginToken = Async.ok tok)
    (ha : env.approveLoginOnExistingDevice = Async.ok dev)
    (hv : env.verifyNewDeviceOnExistingDevice = Async.ok ()) :
    (runAttempt ⟨true, false⟩ env (Click.Approve :: rest)).events =
      [Event.phase Phase.Loading, Event.phase Phase.ShowingQR, Event.codeShown env.code,
       Event.phase Phase.LegacyConnected, Event.phase Phase.WaitingForDevice,
       Event.approveCalled tok, Event.closeCalled, Event.completed true] ∧
    Event.phase Phase.Verifying ∉ (runAttempt ⟨true, false⟩ env (Click.Approve :: rest)).events ∧
    (runAttempt ⟨true, true⟩ env (Click.Approve :: rest)).events =
      [Event.phase Phase.Loading, Event.phase Phase.ShowingQR, Event.codeShown env.code,
       Event.phase Phase.LegacyConnected, Event.phase Phase.WaitingForDevice,
       Event.approveCalled tok, Event.phase Phase.Verifying, Event.verifyCalled,
       Event.closeCalled, Event.completed true] ∧
    ((runAttempt ⟨true, true⟩ env (Click.Approve :: rest)).events.filter Event.isVerify) =
      [Event.verifyCalled] := by
  refine ⟨?_, ?_, ?_, ?_⟩ <;>
    simp [runAttempt, legacyMount, legacyShowingQR, legacyConnected, legacyApprove,
      legacyVerify, dismissError, finish, errorOut, setPhase, emit, initState,
      Event.isVerify, hg, hs, ht, ha, hv]

theorem approve_connected_legacy_witness :
    (wEnvOk.generateCode = Async.ok () ∧
     wEnvOk.startAfterShowingCode = Async.ok "digits" ∧
     wEnvOk.requestLoginToken = Async.ok "token" ∧
     wEnvOk.approveLoginOnExistingDevice = Async.ok "device" ∧
     wEnvOk.verifyNewDeviceOnExistingDevice = Async.ok ()) ∧
    ((runAttempt ⟨true, false⟩ wEnvOk [Click.Approve]).events =
      [Event.phase Phase.Loading, Event.phase Phase.ShowingQR, Event.codeShown wEnvOk.code,
       Event.phase Phase.LegacyConnected, Event.phase Phase.WaitingForDevice,
       Event.approveCalled "token", Event.closeCalled, Event.completed true] ∧
     Event.phase Phase.Verifying ∉ (runAttempt ⟨true, false⟩ wEnvOk [Click.Approve]).events ∧
     (runAttempt ⟨true, true⟩ wEnvOk [Click.Approve]).events =
      [Event.phase Phase.Loading, Event.phase Phase.ShowingQR, Event.codeShown wEnvOk.code,
       Event.phase Phase.LegacyConnected, Event.phase Phase.WaitingForDevice,
       Event.approveCalled "token", Event.phase Phase.Verifying, Event.verifyCalled,
       Event.closeCalled, Event.completed true] ∧
     ((runAttempt ⟨true, true⟩ wEnvOk [Click.Approve]).events.filter Event.isVerify) =
      [Event.verifyCalled]) :=
  ⟨⟨rfl, rfl, rfl, rfl, rfl⟩,
   approve_connected_legacy wEnvOk "digits" "token" "device" [] rfl rfl rfl rfl rfl⟩

/-- Claim C3: in the modern protocol, after a successful negotiation and
grant, clicking Approve at `OutOfBandConfirmation` opens the returned
verification URI exactly once (one `openedUri` event in the stated trace),
then enters `WaitingForDevice`; the completion with `true` happens after
`shareSecrets` resolves, and does not happen while `shareSecrets` is still in
flight. -/
theorem approve_outofband_modern (env : Env) (uri : String) (cr : Bool) (rest : List Click)
    (hg : env.generateCode = Async.ok ())
    (hn : env.negotiateProtocols = Async.ok ())
    (hgr : env.deviceAuthorizationGrant = Async.ok (some uri)) :
    (env.shareSecrets = Async.ok () →
      (runAttempt ⟨false, cr⟩ env (Click.Approve :: rest)).events =
        [Event.phase Phase.Loading, Event.phase Phase.ShowingQR,
         Event.phase Phase.OutOfBandConfirmation, Event.openedUri uri,
         Event.phase Phase.WaitingForDevice, Event.closeCalled, Event.completed true]) ∧
    (env.shareSecrets = Async.pending →
      (runAttempt ⟨false, cr⟩ env (Click.Approve :: rest)).events =
        [Event.phase Phase.Loading, Event.phase Phase.ShowingQR,
         Event.phase Phase.OutOfBandConfirmation, Event.openedUri uri,
         Event.phase Phase.WaitingForDevice] ∧
      completions (runAttempt ⟨false, cr⟩ env (Click.Approve :: rest)) = []) := by
  constructor
  · intro hsh
    simp [runAttempt, modernMount, modernShowingQR, modernOutOfBand, modernWaitForSecrets,
      dismissError, finish, errorOut, setPhase, emit, initState, hg, hn, hgr, hsh]
  · intro hsh
    constructor <;>
      simp [runAttempt, modernMount, modernShowingQR, modernOutOfBand, modernWaitForSecrets,
        completions, Event.isCompleted, dismissError, finish, errorOut, setPhase, emit,
        initState, hg, hn, hgr, hsh]

theorem approve_outofband_modern_witness :
    (wEnvOk.generateCode = Async.ok () ∧
     wEnvOk.negotiateProtocols = Async.ok () ∧
     wEnvOk.deviceAuthorizationGrant = Async.ok (some "uri")) ∧
    ((wEnvOk.shareSecrets = Async.ok () →
      (runAttempt ⟨false, false⟩ wEnvOk [Click.Approve]).events =
        [Event.phase Phase.Loading, Event.phase Phase.ShowingQR,
         Event.phase Phase.OutOfBandConfirmation, Event.openedUri "uri",
         Event.phase Phase.WaitingForDevice, Event.closeCalled, Event.completed true]) ∧
     (wEnvOk.shareSecrets = Async.pending →
      (runAttempt ⟨false, false⟩ wEnvOk [Click.Approve]).events =
        [Event.phase Phase.Loading, Event.phase Phase.ShowingQR,
         Event.phase Phase.OutOfBandConfirmation, Event.openedUri "uri",
         Event.phase Phase.WaitingForDevice] ∧
      completions (runAttempt ⟨false, false⟩ wEnvOk [Click.Approve]) = [])) :=
  ⟨⟨rfl, rfl, rfl⟩,
   approve_outofband_modern wEnvOk "uri" false [] rfl rfl rfl⟩

/-- Claim C6: in legacy mode, when `generateCode` rejects, the observed phase
sequence is exactly `Loading` then `Error`, the surfaced failure reason is
`HomeserverLacksSupport`, and no pairing code is ever shown. -/
theorem generate_code_failure_legacy (env : Env) (clicks : List Click) (cr : Bool)
    (e : RawError) (hg : env.generateCode = Async.err e) :
    (runAttempt ⟨true, cr⟩ env clicks).phase = Phase.Error ∧
    (runAttempt ⟨true, cr⟩ env clicks).failureReason =
      some FailureReason.HomeserverLacksSupport ∧
    ((runAttempt ⟨true, cr⟩ env clicks).events.filter Event.isPhase) =
      [Event.phase Phase.Loading, Event.phase Phase.Error] ∧
    ∀ c : String, Event.codeShown c ∉ (runAttempt ⟨true, cr⟩ env clicks).events := by
  refine ⟨?_, ?_, ?_, ?_⟩ <;>
    cases clicks <;>
      simp [runAttempt, legacyMount, dismissError, finish, errorOut, setPhase, emit,
        initState, Event.isPhase, hg]

theorem generate_code_failure_legacy_witness :
    (wEnvNoGen.generateCode = Async.err { httpStatus := none, reason := none }) ∧
    ((runAttempt ⟨true, false⟩ wEnvNoGen []).phase = Phase.Error ∧
     (runAttempt ⟨true, false⟩ wEnvNoGen []).failureReason =
       some FailureReason.HomeserverLacksSupport ∧
     ((runAttempt ⟨true, false⟩ wEnvNoGen []).events.filter Event.isPhase) =
       [Event.phase Phase.Loading, Event.phase Phase.Error] ∧
     ∀ c : String, Event.codeShown c ∉ (runAttempt ⟨true, false⟩ wEnvNoGen []).events) :=
  ⟨rfl, generate_code_failure_legacy wEnvNoGen [] false { httpStatus := none, reason := none } rfl⟩

/-- Claim C7: clicking Back at the `ShowingQR` phase — in either protocol
mode, while the awaited operation is still in flight — cancels the session
with the (legacy) `UserCancelled` reason, completes the attempt with `false`,
and causes no further phase change: the final phase is still `ShowingQR` and
the phase trace ends there. -/
theorem back_at_showingqr (env : Env) (cr : Bool) (rest : List Click)
    (hg : env.generateCode = Async.ok ())
    (hs : env.startAfterShowingCode = Async.pending)
    (hn : env.negotiateProtocols = Async.pending) :
    ((runAttempt ⟨true, cr⟩ env (Click.Back :: rest)).events.filter Event.isCancel =
       [Event.cancelCalled FailureReason.LegacyUserCancelled] ∧
     completions (runAttempt ⟨true, cr⟩ env (Click.Back :: rest)) =
       [Event.completed false] ∧
     (runAttempt ⟨true, cr⟩ env (Click.Back :: rest)).phase = Phase.ShowingQR ∧
     (runAttempt ⟨true, cr⟩ env (Click.Back :: rest)).events.filter Event.isPhase =
       [Event.phase Phase.Loading, Event.phase Phase.ShowingQR]) ∧
    ((runAttempt ⟨false, cr⟩ env (Click.Back :: rest)).events.filter Event.isCancel =
       [Event.cancelCalled FailureReason.LegacyUserCancelled] ∧
     completions (runAttempt ⟨false, cr⟩ env (Click.Back :: rest)) =
       [Event.completed false] ∧
     (runAttempt ⟨false, cr⟩ env (Click.Back :: rest)).phase = Phase.ShowingQR ∧
     (runAttempt ⟨false, cr⟩ env (Click.Back :: rest)).events.filter Event.isPhase =
       [Event.phase Phase.Loading, Event.phase Phase.ShowingQR]) := by
  refine ⟨⟨?_, ?_, ?_, ?_⟩, ⟨?_, ?_, ?_, ?_⟩⟩ <;>
    simp [runAttempt, legacyMount, legacyShowingQR, modernMount, modernShowingQR,
      completions, Event.isCancel, Event.isCompleted, Event.isPhase,
      dismissError, finish, errorOut, setPhase, emit, initState, hg, hs, hn]

theorem back_at_showingqr_witness :
    (wEnvPend.generateCode = Async.ok () ∧
     wEnvPend.startAfterShowingCode = Async.pending ∧
     wEnvPend.negotiateProtocols = Async.pending) ∧
    (((runAttempt ⟨true, false⟩ wEnvPend [Click.Back]).events.filter Event.isCancel =
        [Event.cancelCalled FailureReason.LegacyUserCancelled] ∧
      completions (runAttempt ⟨true, false⟩ wEnvPend [Click.Back]) =
        [Event.completed false] ∧
      (runAttempt ⟨true, false⟩ wEnvPend [Click.Back]).phase = Phase.ShowingQR ∧
      (runAttempt ⟨true, false⟩ wEnvPend [Click.Back]).events.filter Event.isPhase =
        [Event.phase Phase.Loading, Event.phase Phase.ShowingQR]) ∧
     ((runAttempt ⟨false, false⟩ wEnvPend [Click.Back]).events.filter Event.isCancel =
        [Event.cancelCalled FailureReason.LegacyUserCancelled] ∧
      completions (runAttempt ⟨false, false⟩ wEnvPend [Click.Back]) =
        [Event.completed false] ∧
      (runAttempt ⟨false, false⟩ wEnvPend [Click.Back]).phase = Phase.ShowingQR ∧
      (runAttempt ⟨false, false⟩ wEnvPend [Click.Back]).events.filter Event.isPhase =
        [Event.phase Phase.Loading, Event.phase Phase.ShowingQR])) :=
  ⟨⟨rfl, rfl, rfl⟩, back_at_showingqr wEnvPend false [] rfl rfl rfl⟩

/-- Claim C9: in the modern protocol, clicking Cancel at
`OutOfBandConfirmation` cancels the session with the modern-protocol
`UserCancelled` reason — which is a distinct taxonomy member from the legacy
one — and the attempt completes with `false`. -/
theorem cancel_at_outofband_modern (env : Env) (uri : Option String) (cr : Bool)
    (rest : List Click)
    (hg : env.generateCode = Async.ok ())
    (hn : env.negotiateProtocols = Async.ok ())
    (hgr : env.deviceAuthorizationGrant = Async.ok uri) :
    (runAttempt ⟨false, cr⟩ env (Click.Cancel :: rest)).events.filter Event.isCancel =
      [Event.cancelCalled FailureReason.MSC4108UserCancelled] ∧
    completions (runAttempt ⟨false, cr⟩ env (Click.Cancel :: rest)) =
      [Event.completed false] ∧
    FailureReason.MSC4108UserCancelled ≠ FailureReason.LegacyUserCancelled := by
  refine ⟨?_, ?_, by simp⟩ <;>
    simp [runAttempt, modernMount, modernShowingQR, modernOutOfBand,
      completions, Event.isCancel, Event.isCompleted,
      dismissError, finish, errorOut, setPhase, emit, initState, hg, hn, hgr]

theorem cancel_at_outofband_modern_witness :
    (wEnvOk.generateCode = Async.ok () ∧
     wEnvOk.negotiateProtocols = Async.ok () ∧
     wEnvOk.deviceAuthorizationGrant = Async.ok (some "uri")) ∧
    ((runAttempt ⟨false, false⟩ wEnvOk [Click.Cancel]).events.filter Event.isCancel =
       [Event.cancelCalled FailureReason.MSC4108UserCancelled] ∧
     completions (runAttempt ⟨false, false⟩ wEnvOk [Click.Cancel]) =
       [Event.completed false] ∧
     FailureReason.MSC4108UserCancelled ≠ FailureReason.LegacyUserCancelled) :=
  ⟨⟨rfl, rfl, rfl⟩, cancel_at_outofband_modern wEnvOk (some "uri") false [] rfl rfl rfl⟩

/-! Disposed-flag discipline: once the component is torn down, every state
update and session call issued by a resuming continuation is discarded. -/

lemma emit_disposed {s : OrchState} (e : Event) (h : s.disposed = true) : emit s e = s := by
  simp [emit, h]

lemma setPhase_disposed {s : OrchState} (p : Phase) (h : s.disposed = true) :
    setPhase s p = s := by
  simp [setPhase, h]

lemma errorOut_disposed {s : OrchState} (r : FailureReason) (h : s.disposed = true) :
    errorOut s r = s := by
  simp [errorOut, h]

lemma finish_disposed {s : OrchState} (b : Bool) (h : s.disposed = true) :
    finish s b = s :=
  emit_disposed _ h

lemma dismissError_disposed {s : OrchState} (clicks : List Click) (h : s.disposed = true) :
    dismissError clicks s = s := by
  cases clicks <;> simp [dismissError, finish_disposed _ h]

lemma legacyVerify_disposed (env : Env) (clicks : List Click) {s : OrchState}
    (h : s.disposed = true) : legacyVerify env clicks s = s := by
  have h1 : emit (setPhase s Phase.Verifying) Event.verifyCalled = s := by
    rw [setPhase_disposed _ h, emit_disposed _ h]
  cases hv : env.verifyNewDeviceOnExistingDevice <;>
    simp [legacyVerify, hv, h1, errorOut_disposed _ h, dismissError_disposed _ h,
      finish_disposed _ h, emit_disposed _ h]

lemma legacyApprove_disposed (cfg : Config) (env : Env) (clicks : List Click)
    {s : OrchState} (h : s.disposed = true) : legacyApprove cfg env clicks s = s := by
  cases ht : env.requestLoginToken with
  | pending => simp [legacyApprove, ht]
  | err e => simp [legacyApprove, ht, errorOut_disposed _ h, dismissError_disposed _ h]
  | ok token =>
    have h1 : emit (setPhase s Phase.WaitingForDevice) (Event.approveCalled token) = s := by
      rw [setPhase_disposed _ h, emit_disposed _ h]
    cases ha : env.approveLoginOnExistingDevice <;>
      cases hcr : cfg.cryptoEnabled <;>
        simp [legacyApprove, ht, ha, hcr, h1, errorOut_disposed _ h,
          dismissError_disposed _ h, finish_disposed _ h, emit_disposed _ h,
          legacyVerify_disposed env clicks h]

lemma legacyDecline_disposed (env : Env) (clicks : List Click) {s : OrchState}
    (h : s.disposed = true) : legacyDecline env clicks s = s := by
  have h1 : emit s Event.declineCalled = s := emit_disposed _ h
  cases hd : env.declineLoginOnExistingDevice <;>
    simp [legacyDecline, hd, h1, errorOut_disposed _ h, dismissError_disposed _ h,
      finish_disposed _ h]

lemma legacyConnected_disposed (cfg : Config) (env : Env) (clicks : List Click)
    {s : OrchState} (h : s.disposed = true) : legacyConnected cfg env clicks s = s := by
  cases clicks with
  | nil => rfl
  | cons c rest =>
    cases c <;>
      simp [legacyConnected, legacyApprove_disposed cfg env rest h,
        legacyDecline_disposed env rest h]

lemma legacyShowingQR_disposed (cfg : Config) (env : Env) (clicks : List Click)
    {s : OrchState} (h : s.disposed = true) : legacyShowingQR cfg env clicks s = s := by
  cases hs : env.startAfterShowingCode with
  | pending =>
    cases clicks with
    | nil => simp [legacyShowingQR, hs]
    | cons c rest =>
      cases c <;>
        simp [legacyShowingQR, hs, finish_disposed _ h, emit_disposed _ h]
  | err e => simp [legacyShowingQR, hs, errorOut_disposed _ h, dismissError_disposed _ h]
  | ok d =>
    have : legacyShowingQR cfg env clicks s =
        legacyConnected cfg env clicks (setPhase s Phase.LegacyConnected) := by
      simp [legacyShowingQR, hs]
    rw [this, setPhase_disposed _ h]
    exact legacyConnected_disposed cfg env clicks h

lemma legacyMount_disposed (cfg : Config) (env : Env) (clicks : List Click)
    {s : OrchState} (h : s.disposed = true) : legacyMount cfg env clicks s = s := by
  have h0 : setPhase s Phase.Loading = s := setPhase_disposed _ h
  cases hg : env.generateCode with
  | pending => simp [legacyMount, hg, h0]
  | err e => simp [legacyMount, hg, h0, errorOut_disposed _ h, dismissError_disposed _ h]
  | ok u =>
    have h2 : legacyMount cfg env clicks s =
        legacyShowingQR cfg env clicks
          (emit (setPhase (setPhase s Phase.Loading) Phase.ShowingQR)
            (Event.codeShown env.code)) := by
      simp [legacyMount, hg]
    rw [h2, h0, setPhase_disposed _ h, emit_disposed _ h]
    exact legacyShowingQR_disposed cfg env clicks h

lemma modernWaitForSecrets_disposed (env : Env) (clicks : List Click) {s : OrchState}
    (h : s.disposed = true) : modernWaitForSecrets env clicks s = s := by
  cases hs : env.shareSecrets <;>
    simp [modernWaitForSecrets, hs, modernErrorOut, errorOut_disposed _ h,
      dismissError_disposed _ h, finish_disposed _ h, emit_disposed _ h]

lemma modernOutOfBand_disposed (env : Env) (clicks : List Click) (uri : Option String)
    {s : OrchState} (h : s.disposed = true) : modernOutOfBand env clicks uri s = s := by
  cases clicks with
  | nil => rfl
  | cons c rest =>
    cases c with
    | Approve =>
      cases uri with
      | some u =>
        have h2 : modernOutOfBand env (Click.Approve :: rest) (some u) s =
            modernWaitForSecrets env rest
              (setPhase (emit s (Event.openedUri u)) Phase.WaitingForDevice) := by
          simp [modernOutOfBand]
        rw [h2, emit_disposed _ h, setPhase_disposed _ h]
        exact modernWaitForSecrets_disposed env rest h
      | none =>
        have h2 : modernOutOfBand env (Click.Approve :: rest) none s =
            modernWaitForSecrets env rest (setPhase s Phase.WaitingForDevice) := by
          simp [modernOutOfBand]
        rw [h2, setPhase_disposed _ h]
        exact modernWaitForSecrets_disposed env rest h
    | Decline => rfl
    | Cancel => simp [modernOutOfBand, finish_disposed _ h, emit_disposed _ h]
    | Back => rfl

lemma modernShowingQR_disposed (env : Env) (clicks : List Click) {s : OrchState}
    (h : s.disposed = true) : modernShowingQR env clicks s = s := by
  cases hn : env.negotiateProtocols with
  | pending =>
    cases clicks with
    | nil => simp [modernShowingQR, hn]
    | cons c rest =>
      cases c <;> simp [modernShowingQR, hn, finish_disposed _ h, emit_disposed _ h]
  | err e =>
    simp [modernShowingQR, hn, modernErrorOut, errorOut_disposed _ h,
      dismissError_disposed _ h, emit_disposed _ h]
  | ok u =>
    cases hgr : env.deviceAuthorizationGrant with
    | pending => simp [modernShowingQR, hn, hgr]
    | err e =>
      simp [modernShowingQR, hn, hgr, modernErrorOut, errorOut_disposed _ h,
        dismissError_disposed _ h, emit_disposed _ h]
    | ok uri =>
      have h2 : modernShowingQR env clicks s =
          modernOutOfBand env clicks uri (setPhase s Phase.OutOfBandConfirmation) := by
        simp [modernShowingQR, hn, hgr]
      rw [h2, setPhase_disposed _ h]
      exact modernOutOfBand_disposed env clicks uri h

lemma modernMount_disposed (env : Env) (clicks : List Click) {s : OrchState}
    (h : s.disposed = true) : modernMount env clicks s = s := by
  have h0 : setPhase s Phase.Loading = s := setPhase_disposed _ h
  cases hg : env.generateCode with
  | pending => simp [modernMount, hg, h0]
  | err e => simp [modernMount, hg, h0, errorOut_disposed _ h, dismissError_disposed _ h]
  | ok u =>
    have h2 : modernMount env clicks s =
        modernShowingQR env clicks (setPhase (setPhase s Phase.Loading) Phase.ShowingQR) := by
      simp [modernMount, hg]
    rw [h2, h0, setPhase_disposed _ h]
    exact modernShowingQR_disposed env clicks h

/-- Claim C8: once the component is disposed (torn down), no state update
ever occurs: every continuation of the control loop — the mount sequences and
every post-suspension resumption, in both protocol modes — leaves a disposed
state completely unchanged, so a previously-issued asynchronous call that
later resolves or rejects can neither change the phase nor fire any callback
or session call. -/
theorem no_update_after_dispose (cfg : Config) (env : Env) (clicks : List Click)
    (uri : Option String) (s : OrchState) (h : s.disposed = true) :
    legacyMount cfg env clicks s = s ∧ legacyShowingQR cfg env clicks s = s ∧
    legacyConnected cfg env clicks s = s ∧ legacyApprove cfg env clicks s = s ∧
    legacyVerify env clicks s = s ∧ legacyDecline env clicks s = s ∧
    modernMount env clicks s = s ∧ modernShowingQR env clicks s = s ∧
    modernOutOfBand env clicks uri s = s ∧ modernWaitForSecrets env clicks s = s :=
  ⟨legacyMount_disposed cfg env clicks h, legacyShowingQR_disposed cfg env clicks h,
   legacyConnected_disposed cfg env clicks h, legacyApprove_disposed cfg env clicks h,
   legacyVerify_disposed env clicks h, legacyDecline_disposed env clicks h,
   modernMount_disposed env clicks h, modernShowingQR_disposed env clicks h,
   modernOutOfBand_disposed env clicks uri h, modernWaitForSecrets_disposed env clicks h⟩

/-- A state torn down while the peer-wait was in flight at `ShowingQR`. -/
def wDisposed : OrchState :=
  { phase := Phase.ShowingQR, failureReason := none, disposed := true,
    events := [Event.phase Phase.Loading, Event.phase Phase.ShowingQR] }

theorem no_update_after_dispose_witness :
    wDisposed.disposed = true ∧
    (legacyMount ⟨true, true⟩ wEnvOk [Click.Approve] wDisposed = wDisposed ∧
     legacyShowingQR ⟨true, true⟩ wEnvOk [Click.Approve] wDisposed = wDisposed ∧
     legacyConnected ⟨true, true⟩ wEnvOk [Click.Approve] wDisposed = wDisposed ∧
     legacyApprove ⟨true, true⟩ wEnvOk [Click.Approve] wDisposed = wDisposed ∧
     legacyVerify wEnvOk [Click.Approve] wDisposed = wDisposed ∧
     legacyDecline wEnvOk [Click.Approve] wDisposed = wDisposed ∧
     modernMount wEnvOk [Click.Approve] wDisposed = wDisposed ∧
     modernShowingQR wEnvOk [Click.Approve] wDisposed = wDisposed ∧
     modernOutOfBand wEnvOk [Click.Approve] (some "uri") wDisposed = wDisposed ∧
     modernWaitForSecrets wEnvOk [Click.Approve] wDisposed = wDisposed) :=
  ⟨rfl, no_update_after_dispose ⟨true, true⟩ wEnvOk [Click.Approve] (some "uri") wDisposed rfl⟩

/-! Event-log membership: each primitive update appends at most its own
event, so an event a flow never emits never appears in its log. -/

lemma mem_emit_iff (x : Event) (s : OrchState) (e : Event) :
    x ∈ (emit s e).events ↔ x ∈ s.events ∨ (s.disposed = false ∧ x = e) := by
  unfold emit
  split <;> rename_i hd <;> simp [hd]

lemma mem_setPhase_iff (x : Event) (s : OrchState) (p : Phase) :
    x ∈ (setPhase s p).events ↔ x ∈ s.events ∨ (s.disposed = false ∧ x = Event.phase p) := by
  unfold setPhase
  split <;> rename_i hd <;> simp [hd]

lemma mem_errorOut_iff (x : Event) (s : OrchState) (r : FailureReason) :
    x ∈ (errorOut s r).events ↔
      x ∈ s.events ∨ (s.disposed = false ∧ x = Event.phase Phase.Error) := by
  unfold errorOut
  split <;> rename_i hd <;> simp [hd]

lemma mem_finish_iff (x : Event) (s : OrchState) (b : Bool) :
    x ∈ (finish s b).events ↔ x ∈ s.events ∨ (s.disposed = false ∧ x = Event.completed b) :=
  mem_emit_iff x s (Event.completed b)

lemma mem_dismissError_iff (x : Event) (clicks : List Click) (s : OrchState) :
    x ∈ (dismissError clicks s).events ↔
      x ∈ s.events ∨ (clicks ≠ [] ∧ s.disposed = false ∧ x = Event.completed false) := by
  cases clicks <;> simp [dismissError, mem_finish_iff, and_assoc]

lemma noConn_modernWaitForSecrets (env : Env) (clicks : List Click) (s : OrchState)
    (h : Event.phase Phase.LegacyConnected ∉ s.events) :
    Event.phase Phase.LegacyConnected ∉ (modernWaitForSecrets env clicks s).events := by
  cases hsh : env.shareSecrets <;>
    simp [modernWaitForSecrets, hsh, modernErrorOut, mem_dismissError_iff, mem_errorOut_iff,
      mem_emit_iff, mem_finish_iff, mem_setPhase_iff, h]

lemma noConn_modernOutOfBand (env : Env) (clicks : List Click) (uri : Option String)
    (s : OrchState) (h : Event.phase Phase.LegacyConnected ∉ s.events) :
    Event.phase Phase.LegacyConnected ∉ (modernOutOfBand env clicks uri s).events := by
  cases clicks with
  | nil => simpa [modernOutOfBand] using h
  | cons c rest =>
    cases c with
    | Approve =>
      cases uri with
      | some u =>
        have h2 : modernOutOfBand env (Click.Approve :: rest) (some u) s =
            modernWaitForSecrets env rest
              (setPhase (emit s (Event.openedUri u)) Phase.WaitingForDevice) := by
          simp [modernOutOfBand]
        rw [h2]
        apply noConn_modernWaitForSecrets
        simp [mem_setPhase_iff, mem_emit_iff, h]
      | none =>
        have h2 : modernOutOfBand env (Click.Approve :: rest) none s =
            modernWaitForSecrets env rest (setPhase s Phase.WaitingForDevice) := by
          simp [modernOutOfBand]
        rw [h2]
        apply noConn_modernWaitForSecrets
        simp [mem_setPhase_iff, h]
    | Decline => simpa [modernOutOfBand] using h
    | Cancel => simp [modernOutOfBand, mem_finish_iff, mem_emit_iff, h]
    | Back => simpa [modernOutOfBand] using h

lemma noConn_modernShowingQR (env : Env) (clicks : List Click) (s : OrchState)
    (h : Event.phase Phase.LegacyConnected ∉ s.events) :
    Event.phase Phase.LegacyConnected ∉ (modernShowingQR env clicks s).events := by
  cases hn : env.negotiateProtocols with
  | pending =>
    cases clicks with
    | nil => simpa [modernShowingQR, hn] using h
    | cons c rest =>
      cases c <;> simp [modernShowingQR, hn, mem_finish_iff, mem_emit_iff, h]
  | err e =>
    simp [modernShowingQR, hn, modernErrorOut, mem_dismissError_iff, mem_errorOut_iff,
      mem_emit_iff, h]
  | ok u =>
    cases hgr : env.deviceAuthorizationGrant with
    | pending => simpa [modernShowingQR, hn, hgr] using h
    | err e =>
      simp [modernShowingQR, hn, hgr, modernErrorOut, mem_dismissError_iff,
        mem_errorOut_iff, mem_emit_iff, h]
    | ok uri =>
      have h2 : modernShowingQR env clicks s =
          modernOutOfBand env clicks uri (setPhase s Phase.OutOfBandConfirmation) := by
        simp [modernShowingQR, hn, hgr]
      rw [h2]
      apply noConn_modernOutOfBand
      simp [mem_setPhase_iff, h]

lemma noConn_modernMount (env : Env) (clicks : List Click) (s : OrchState)
    (h : Event.phase Phase.LegacyConnected ∉ s.events) :
    Event.phase Phase.LegacyConnected ∉ (modernMount env clicks s).events := by
  cases hg : env.generateCode with
  | pending => simp [modernMount, hg, mem_setPhase_iff, h]
  | err e =>
    simp [modernMount, hg, mem_dismissError_iff, mem_errorOut_iff, mem_setPhase_iff, h]
  | ok u =>
    have h2 : modernMount env clicks s =
        modernShowingQR env clicks (setPhase (setPhase s Phase.Loading) Phase.ShowingQR) := by
      simp [modernMount, hg]
    rw [h2]
    apply noConn_modernShowingQR
    simp [mem_setPhase_iff, h]

/-- Claim C4: the error classifier maps an HTTP 429 rejection to exactly the
locally synthesized `rate_limited` reason whatever the protocol's generic
kind and whatever native reason the rejection carries; concretely, in the
legacy flow a login-token request rejected with 429 after Approve at
`Connected` lands in the `Error` phase with reason exactly `rate_limited`;
and the modern flow never even enters the legacy `Connected` phase, so the
rule holds regardless of protocol variant. -/
theorem rate_limited_on_429 (g : FailureReason) (e : RawError)
    (he : e.httpStatus = some 429) :
    classify g e = FailureReason.RateLimited ∧
    (∀ (env : Env) (d : String) (cr : Bool) (rest : List Click),
      env.generateCode = Async.ok () →
      env.startAfterShowingCode = Async.ok d →
      env.requestLoginToken = Async.err e →
      (runAttempt ⟨true, cr⟩ env (Click.Approve :: rest)).phase = Phase.Error ∧
      (runAttempt ⟨true, cr⟩ env (Click.Approve :: rest)).failureReason =
        some FailureReason.RateLimited) ∧
    (∀ (env : Env) (clicks : List Click) (cr : Bool),
      Event.phase Phase.LegacyConnected ∉ (runAttempt ⟨false, cr⟩ env clicks).events) := by
  refine ⟨by simp [classify, he], ?_, ?_⟩
  · intro env d cr rest hg hs ht
    constructor <;>
      cases rest <;>
        simp [runAttempt, legacyMount, legacyShowingQR, legacyConnected, legacyApprove,
          classify, dismissError, finish, errorOut, setPhase, emit, initState,
          hg, hs, ht, he]
  · intro env clicks cr
    have h0 : Event.phase Phase.LegacyConnected ∉ initState.events := by
      simp [initState]
    simpa [runAttempt] using noConn_modernMount env clicks initState h0

theorem rate_limited_on_429_witness :
    ({ httpStatus := some 429, reason := none } : RawError).httpStatus = some 429 ∧
    (classify FailureReason.Unknown { httpStatus := some 429, reason := none } =
       FailureReason.RateLimited ∧
     (∀ (env : Env) (d : String) (cr : Bool) (rest : List Click),
       env.generateCode = Async.ok () →
       env.startAfterShowingCode = Async.ok d →
       env.requestLoginToken = Async.err { httpStatus := some 429, reason := none } →
       (runAttempt ⟨true, cr⟩ env (Click.Approve :: rest)).phase = Phase.Error ∧
       (runAttempt ⟨true, cr⟩ env (Click.Approve :: rest)).failureReason =
         some FailureReason.RateLimited) ∧
     (∀ (env : Env) (clicks : List Click) (cr : Bool),
       Event.phase Phase.LegacyConnected ∉ (runAttempt ⟨false, cr⟩ env clicks).events)) :=
  ⟨rfl, rate_limited_on_429 FailureReason.Unknown { httpStatus := some 429, reason := none } rfl⟩

/-! Error-classification invariant: the `Error` phase is only ever entered
through `errorOut`, which attaches a `FailureReason`. -/

/-- A state at the `Error` phase always carries a failure reason. -/
def errInv (s : OrchState) : Prop :=
  s.phase = Phase.Error → s.failureReason.isSome = true

lemma phase_emit (s : OrchState) (e : Event) : (emit s e).phase = s.phase := by
  unfold emit
  split <;> rfl

lemma fr_emit (s : OrchState) (e : Event) :
    (emit s e).failureReason = s.failureReason := by
  unfold emit
  split <;> rfl

lemma errInv_emit {s : OrchState} (e : Event) (h : errInv s) : errInv (emit s e) := by
  intro hp
  rw [phase_emit] at hp
  rw [fr_emit]
  exact h hp

lemma errInv_finish {s : OrchState} (b : Bool) (h : errInv s) : errInv (finish s b) :=
  errInv_emit _ h

lemma errInv_dismissError {s : OrchState} (clicks : List Click) (h : errInv s) :
    errInv (dismissError clicks s) := by
  cases clicks with
  | nil => exact h
  | cons c rest => exact errInv_finish _ h

lemma errInv_errorOut {s : OrchState} (r : FailureReason) (h : errInv s) :
    errInv (errorOut s r) := by
  unfold errorOut
  split
  · exact h
  · intro _
    rfl

lemma errInv_setPhase {s : OrchState} (p : Phase) (hp : p ≠ Phase.Error) (h : errInv s) :
    errInv (setPhase s p) := by
  unfold setPhase
  split
  · exact h
  · intro he
    exact absurd he hp

lemma errInv_legacyVerify (env : Env) (clicks : List Click) {s : OrchState}
    (h : errInv s) : errInv (legacyVerify env clicks s) := by
  have h1 : errInv (emit (setPhase s Phase.Verifying) Event.verifyCalled) :=
    errInv_emit _ (errInv_setPhase _ (by simp) h)
  cases hv : env.verifyNewDeviceOnExistingDevice with
  | pending => simpa [legacyVerify, hv] using h1
  | err e =>
    have : legacyVerify env clicks s =
        dismissError clicks (errorOut (emit (setPhase s Phase.Verifying) Event.verifyCalled)
          (classify FailureReason.Unknown e)) := by
      simp [legacyVerify, hv]
    rw [this]
    exact errInv_dismissError _ (errInv_errorOut _ h1)
  | ok u =>
    have : legacyVerify env clicks s =
        finish (emit (emit (setPhase s Phase.Verifying) Event.verifyCalled)
          Event.closeCalled) true := by
      simp [legacyVerify, hv]
    rw [this]
    exact errInv_finish _ (errInv_emit _ h1)

lemma errInv_legacyApprove (cfg : Config) (env : Env) (clicks : List Click)
    {s : OrchState} (h : errInv s) : errInv (legacyApprove cfg env clicks s) := by
  cases ht : env.requestLoginToken with
  | pending => simpa [legacyApprove, ht] using h
  | err e =>
    have : legacyApprove cfg env clicks s =
        dismissError clicks (errorOut s (classify FailureReason.Unknown e)) := by
      simp [legacyApprove, ht]
    rw [this]
    exact errInv_dismissError _ (errInv_errorOut _ h)
  | ok token =>
    have h1 : errInv (emit (setPhase s Phase.WaitingForDevice) (Event.approveCalled token)) :=
      errInv_emit _ (errInv_setPhase _ (by simp) h)
    cases ha : env.approveLoginOnExistingDevice with
    | pending => simpa [legacyApprove, ht, ha] using h1
    | err e =>
      have : legacyApprove cfg env clicks s =
          dismissError clicks (errorOut
            (emit (setPhase s Phase.WaitingForDevice) (Event.approveCalled token))
            (classify FailureReason.Unknown e)) := by
        simp [legacyApprove, ht, ha]
      rw [this]
      exact errInv_dismissError _ (errInv_errorOut _ h1)
    | ok dev =>
      cases hcr : cfg.cryptoEnabled with
      | true =>
        have : legacyApprove cfg env clicks s =
            legacyVerify env clicks
              (emit (setPhase s Phase.WaitingForDevice) (Event.approveCalled token)) := by
          simp [legacyApprove, ht, ha, hcr]
        rw [this]
        exact errInv_legacyVerify env clicks h1
      | false =>
        have : legacyApprove cfg env clicks s =
            finish (emit (emit (setPhase s Phase.WaitingForDevice)
              (Event.approveCalled token)) Event.closeCalled) true := by
          simp [legacyApprove, ht, ha, hcr]
        rw [this]
        exact errInv_finish _ (errInv_emit _ h1)

lemma errInv_legacyDecline (env : Env) (clicks : List Click) {s : OrchState}
    (h : errInv s) : errInv (legacyDecline env clicks s) := by
  have h1 : errInv (emit s Event.declineCalled) := errInv_emit _ h
  cases hd : env.declineLoginOnExistingDevice with
  | pending => simpa [legacyDecline, hd] using h1
  | err e =>
    have : legacyDecline env clicks s =
        dismissError clicks (errorOut (emit s Event.declineCalled)
          (classify FailureReason.Unknown e)) := by
      simp [legacyDecline, hd]
    rw [this]
    exact errInv_dismissError _ (errInv_errorOut _ h1)
  | ok u =>
    have : legacyDecline env clicks s = finish (emit s Event.declineCalled) false := by
      simp [legacyDecline, hd]
    rw [this]
    exact errInv_finish _ h1

lemma errInv_legacyConnected (cfg : Config) (env : Env) (clicks : List Click)
    {s : OrchState} (h : errInv s) : errInv (legacyConnected cfg env clicks s) := by
  cases clicks with
  | nil => exact h
  | cons c rest =>
    cases c with
    | Approve => exact errInv_legacyApprove cfg env rest h
    | Decline => exact errInv_legacyDecline env rest h
    | Cancel => exact h
    | Back => exact h

lemma errInv_legacyShowingQR (cfg : Config) (env : Env) (clicks : List Click)
    {s : OrchState} (h : errInv s) : errInv (legacyShowingQR cfg env clicks s) := by
  cases hs : env.startAfterShowingCode with
  | pending =>
    cases clicks with
    | nil => simpa [legacyShowingQR, hs] using h
    | cons c rest =>
      cases c <;> simp only [legacyShowingQR, hs] <;>
        first
        | exact h
        | exact errInv_finish _ (errInv_emit _ h)
  | err e =>
    have : legacyShowingQR cfg env clicks s =
        dismissError clicks (errorOut s (classify FailureReason.Unknown e)) := by
      simp [legacyShowingQR, hs]
    rw [this]
    exact errInv_dismissError _ (errInv_errorOut _ h)
  | ok d =>
    have : legacyShowingQR cfg env clicks s =
        legacyConnected cfg env clicks (setPhase s Phase.LegacyConnected) := by
      simp [legacyShowingQR, hs]
    rw [this]
    exact errInv_legacyConnected cfg env clicks (errInv_setPhase _ (by simp) h)

lemma errInv_legacyMount (cfg : Config) (env : Env) (clicks : List Click)
    {s : OrchState} (h : errInv s) : errInv (legacyMount cfg env clicks s) := by
  have h0 : errInv (setPhase s Phase.Loading) := errInv_setPhase _ (by simp) h
  cases hg : env.generateCode with
  | pending => simpa [legacyMount, hg] using h0
  | err e =>
    have : legacyMount cfg env clicks s =
        dismissError clicks (errorOut (setPhase s Phase.Loading)
          FailureReason.HomeserverLacksSupport) := by
      simp [legacyMount, hg]
    rw [this]
    exact errInv_dismissError _ (errInv_errorOut _ h0)
  | ok u =>
    have : legacyMount cfg env clicks s =
        legacyShowingQR cfg env clicks
          (emit (setPhase (setPhase s Phase.Loading) Phase.ShowingQR)
            (Event.codeShown env.code)) := by
      simp [legacyMount, hg]
    rw [this]
    exact errInv_legacyShowingQR cfg env clicks
      (errInv_emit _ (errInv_setPhase _ (by simp) h0))

lemma errInv_modernErrorOut {s : OrchState} (r : FailureReason) (h : errInv s) :
    errInv (modernErrorOut s r) :=
  errInv_errorOut _ (errInv_emit _ h)

lemma errInv_modernWaitForSecrets (env : Env) (clicks : List Click) {s : OrchState}
    (h : errInv s) : errInv (modernWaitForSecrets env clicks s) := by
  cases hsh : env.shareSecrets with
  | pending => simpa [modernWaitForSecrets, hsh] using h
  | err e =>
    have : modernWaitForSecrets env clicks s =
        dismissError clicks (modernErrorOut s (classify FailureReason.Unknown e)) := by
      simp [modernWaitForSecrets, hsh]
    rw [this]
    exact errInv_dismissError _ (errInv_modernErrorOut _ h)
  | ok u =>
    have : modernWaitForSecrets env clicks s =
        finish (emit s Event.closeCalled) true := by
      simp [modernWaitForSecrets, hsh]
    rw [this]
    exact errInv_finish _ (errInv_emit _ h)

lemma errInv_modernOutOfBand (env : Env) (clicks : List Click) (uri : Option String)
    {s : OrchState} (h : errInv s) : errInv (modernOutOfBand env clicks uri s) := by
  cases clicks with
  | nil => exact h
  | cons c rest =>
    cases c with
    | Approve =>
      cases uri with
      | some u =>
        have h2 : modernOutOfBand env (Click.Approve :: rest) (some u) s =
            modernWaitForSecrets env rest
              (setPhase (emit s (Event.openedUri u)) Phase.WaitingForDevice) := by
          simp [modernOutOfBand]
        rw [h2]
        exact errInv_modernWaitForSecrets env rest
          (errInv_setPhase _ (by simp) (errInv_emit _ h))
      | none =>
        have h2 : modernOutOfBand env (Click.Approve :: rest) none s =
            modernWaitForSecrets env rest (setPhase s Phase.WaitingForDevice) := by
          simp [modernOutOfBand]
        rw [h2]
        exact errInv_modernWaitForSecrets env rest (errInv_setPhase _ (by simp) h)
    | Decline => exact h
    | Cancel => exact errInv_finish _ (errInv_emit _ h)
    | Back => exact h

lemma errInv_modernShowingQR (env : Env) (clicks : List Click) {s : OrchState}
    (h : errInv s) : errInv (modernShowingQR env clicks s) := by
  cases hn : env.negotiateProtocols with
  | pending =>
    cases clicks with
    | nil => simpa [modernShowingQR, hn] using h
    | cons c rest =>
      cases c <;> simp only [modernShowingQR, hn] <;>
        first
        | exact h
        | exact errInv_finish _ (errInv_emit _ h)
  | err e =>
    have : modernShowingQR env clicks s =
        dismissError clicks (modernErrorOut s (classify FailureReason.Unknown e)) := by
      simp [modernShowingQR, hn]
    rw [this]
    exact errInv_dismissError _ (errInv_modernErrorOut _ h)
  | ok u =>
    cases hgr : env.deviceAuthorizationGrant with
    | pending => simpa [modernShowingQR, hn, hgr] using h
    | err e =>
      have : modernShowingQR env clicks s =
          dismissError clicks (modernErrorOut s (classify FailureReason.Unknown e)) := by
        simp [modernShowingQR, hn, hgr]
      rw [this]
      exact errInv_dismissError _ (errInv_modernErrorOut _ h)
    | ok uri =>
      have h2 : modernShowingQR env clicks s =
          modernOutOfBand env clicks uri (setPhase s Phase.OutOfBandConfirmation) := by
        simp [modernShowingQR, hn, hgr]
      rw [h2]
      exact errInv_modernOutOfBand env clicks uri (errInv_setPhase _ (by simp) h)

lemma errInv_modernMount (env : Env) (clicks : List Click) {s : OrchState}
    (h : errInv s) : errInv (modernMount env clicks s) := by
  have h0 : errInv (setPhase s Phase.Loading) := errInv_setPhase _ (by simp) h
  cases hg : env.generateCode with
  | pending => simpa [modernMount, hg] using h0
  | err e =>
    have : modernMount env clicks s =
        dismissError clicks (errorOut (setPhase s Phase.Loading)
          FailureReason.HomeserverLacksSupport) := by
      simp [modernMount, hg]
    rw [this]
    exact errInv_dismissError _ (errInv_errorOut _ h0)
  | ok u =>
    have : modernMount env clicks s =
        modernShowingQR env clicks (setPhase (setPhase s Phase.Loading) Phase.ShowingQR) := by
      simp [modernMount, hg]
    rw [this]
    exact errInv_modernShowingQR env clicks (errInv_setPhase _ (by simp) h0)

/-- Claim C5: every rejection from a session operation is caught and mapped
by the single classifier — one carrying no protocol-native reason (and not an
HTTP 429) maps to the generic kind, concretely surfacing `Error` with
`Unknown` when the legacy peer-connect wait rejects after code display — and
no run of either protocol ever reaches the `Error` phase without a
`FailureReason` attached. -/
theorem errors_always_classified :
    (∀ (g : FailureReason) (e : RawError), e.httpStatus ≠ some 429 → e.reason = none →
      classify g e = g) ∧
    (∀ (env : Env) (clicks : List Click) (cr : Bool) (e : RawError),
      env.generateCode = Async.ok () →
      env.startAfterShowingCode = Async.err e →
      e.httpStatus = none → e.reason = none →
      (runAttempt ⟨true, cr⟩ env clicks).phase = Phase.Error ∧
      (runAttempt ⟨true, cr⟩ env clicks).failureReason = some FailureReason.Unknown ∧
      (runAttempt ⟨true, cr⟩ env clicks).events.filter Event.isPhase =
        [Event.phase Phase.Loading, Event.phase Phase.ShowingQR, Event.phase Phase.Error]) ∧
    (∀ (cfg : Config) (env : Env) (clicks : List Click),
      (runAttempt cfg env clicks).phase = Phase.Error →
      (runAttempt cfg env clicks).failureReason.isSome = true) := by
  refine ⟨?_, ?_, ?_⟩
  · intro g e h429 hr
    simp [classify, h429, hr]
  · intro env clicks cr e hg hs h429 hr
    refine ⟨?_, ?_, ?_⟩ <;>
      cases clicks <;>
        simp [runAttempt, legacyMount, legacyShowingQR, classify, dismissError, finish,
          errorOut, setPhase, emit, initState, Event.isPhase, hg, hs, h429, hr]
  · intro cfg env clicks
    have h0 : errInv initState := by
      intro hp
      simp [initState] at hp
    rcases cfg with ⟨l, cr⟩
    cases l
    · exact errInv_modernMount env clicks h0
    · exact errInv_legacyMount ⟨true, cr⟩ env clicks h0

/-- Environment in which the legacy peer-connect wait rejects with a bare
error. -/
def wEnvNoStart : Env :=
  { wEnvOk with startAfterShowingCode := Async.err { httpStatus := none, reason := none } }

theorem errors_always_classified_witness :
    (wEnvNoStart.generateCode = Async.ok () ∧
     wEnvNoStart.startAfterShowingCode = Async.err { httpStatus := none, reason := none } ∧
     ({ httpStatus := none, reason := none } : RawError).httpStatus = none ∧
     ({ httpStatus := none, reason := none } : RawError).reason = none) ∧
    ((runAttempt ⟨true, false⟩ wEnvNoStart []).phase = Phase.Error ∧
     (runAttempt ⟨true, false⟩ wEnvNoStart []).failureReason = some FailureReason.Unknown ∧
     (runAttempt ⟨true, false⟩ wEnvNoStart []).events.filter Event.isPhase =
       [Event.phase Phase.Loading, Event.phase Phase.ShowingQR, Event.phase Phase.Error]) :=
  ⟨⟨rfl, rfl, rfl, rfl⟩,
   errors_always_classified.2.1 wEnvNoStart [] false
     { httpStatus := none, reason := none } rfl rfl rfl rfl⟩

/-! Completion-callback discipline: when every awaited operation settles and
the user supplies valid clicks, each flow appends exactly one completion
event. -/

lemma disposed_emit (s : OrchState) (e : Event) : (emit s e).disposed = s.disposed := by
  unfold emit
  split <;> rfl

lemma disposed_setPhase (s : OrchState) (p : Phase) :
    (setPhase s p).disposed = s.disposed := by
  unfold setPhase
  split <;> rfl

lemma disposed_errorOut (s : OrchState) (r : FailureReason) :
    (errorOut s r).disposed = s.disposed := by
  unfold errorOut
  split <;> rfl

lemma completions_emit (s : OrchState) (e : Event) (he : Event.isCompleted e = false) :
    completions (emit s e) = completions s := by
  unfold emit completions
  split
  · rfl
  · simp [List.filter_append, he]

lemma completions_setPhase (s : OrchState) (p : Phase) :
    completions (setPhase s p) = completions s := by
  unfold setPhase completions
  split
  · rfl
  · simp [List.filter_append, Event.isCompleted]

lemma completions_errorOut (s : OrchState) (r : FailureReason) :
    completions (errorOut s r) = completions s := by
  unfold errorOut completions
  split
  · rfl
  · simp [List.filter_append, Event.isCompleted]

lemma completions_finish (s : OrchState) (b : Bool) (hd : s.disposed = false) :
    completions (finish s b) = completions s ++ [Event.completed b] := by
  unfold finish emit completions
  simp [hd, List.filter_append, Event.isCompleted]

lemma completions_dismissError (clicks : List Click) (s : OrchState)
    (hc : clicks ≠ []) (hd : s.disposed = false) :
    completions (dismissError clicks s) = completions s ++ [Event.completed false] := by
  cases clicks with
  | nil => exact absurd rfl hc
  | cons c rest => simp [dismissError, completions_finish s false hd]

lemma onceC_legacyVerify (env : Env) (clicks : List Click) (s : OrchState)
    (hd : s.disposed = false)
    (hv : env.verifyNewDeviceOnExistingDevice.isPending = false) (hc : clicks ≠ []) :
    ∃ b : Bool,
      completions (legacyVerify env clicks s) = completions s ++ [Event.completed b] := by
  cases hve : env.verifyNewDeviceOnExistingDevice with
  | pending => rw [hve] at hv; simp [Async.isPending] at hv
  | err e =>
    exact ⟨false, by
      simp [legacyVerify, hve, completions_dismissError, completions_errorOut,
        completions_emit, completions_setPhase, disposed_errorOut, disposed_emit,
        disposed_setPhase, hd, hc, Event.isCompleted]⟩
  | ok u =>
    exact ⟨true, by
      simp [legacyVerify, hve, completions_finish, completions_emit, completions_setPhase,
        disposed_emit, disposed_setPhase, hd, Event.isCompleted]⟩

lemma onceC_legacyApprove (cfg : Config) (env : Env) (clicks : List Click) (s : OrchState)
    (hd : s.disposed = false)
    (ht : env.requestLoginToken.isPending = false)
    (ha : env.approveLoginOnExistingDevice.isPending = false)
    (hv : env.verifyNewDeviceOnExistingDevice.isPending = false) (hc : clicks ≠ []) :
    ∃ b : Bool,
      completions (legacyApprove cfg env clicks s) = completions s ++ [Event.completed b] := by
  cases hte : env.requestLoginToken with
  | pending => rw [hte] at ht; simp [Async.isPending] at ht
  | err e =>
    exact ⟨false, by
      simp [legacyApprove, hte, completions_dismissError, completions_errorOut,
        disposed_errorOut, hd, hc]⟩
  | ok token =>
    cases hae : env.approveLoginOnExistingDevice with
    | pending => rw [hae] at ha; simp [Async.isPending] at ha
    | err e =>
      exact ⟨false, by
        simp [legacyApprove, hte, hae, completions_dismissError, completions_errorOut,
          completions_emit, completions_setPhase, disposed_errorOut, disposed_emit,
          disposed_setPhase, hd, hc, Event.isCompleted]⟩
    | ok dev =>
      cases hcr : cfg.cryptoEnabled with
      | true =>
        obtain ⟨b, hb⟩ := onceC_legacyVerify env clicks
          (emit (setPhase s Phase.WaitingForDevice) (Event.approveCalled token))
          (by simp [disposed_emit, disposed_setPhase, hd]) hv hc
        refine ⟨b, ?_⟩
        have h2 : legacyApprove cfg env clicks s =
            legacyVerify env clicks
              (emit (setPhase s Phase.WaitingForDevice) (Event.approveCalled token)) := by
          simp [legacyApprove, hte, hae, hcr]
        rw [h2, hb, completions_emit _ (Event.approveCalled token) rfl, completions_setPhase]
      | false =>
        exact ⟨true, by
          simp [legacyApprove, hte, hae, hcr, completions_finish, completions_emit,
            completions_setPhase, disposed_emit, disposed_setPhase, hd, Event.isCompleted]⟩

lemma onceC_legacyDecline (env : Env) (clicks : List Click) (s : OrchState)
    (hd : s.disposed = false)
    (hdec : env.declineLoginOnExistingDevice.isPending = false) (hc : clicks ≠ []) :
    ∃ b : Bool,
      completions (legacyDecline env clicks s) = completions s ++ [Event.completed b] := by
  cases hde : env.declineLoginOnExistingDevice with
  | pending => rw [hde] at hdec; simp [Async.isPending] at hdec
  | err e =>
    exact ⟨false, by
      simp [legacyDecline, hde, completions_dismissError, completions_errorOut,
        completions_emit, disposed_errorOut, disposed_emit, hd, hc, Event.isCompleted]⟩
  | ok u =>
    exact ⟨false, by
      simp [legacyDecline, hde, completions_finish, completions_emit,
        disposed_emit, hd, Event.isCompleted]⟩

lemma onceC_legacyConnected (cfg : Config) (env : Env) (c : Click) (rest : List Click)
    (s : OrchState) (hd : s.disposed = false)
    (ht : env.requestLoginToken.isPending = false)
    (ha : env.approveLoginOnExistingDevice.isPending = false)
    (hv : env.verifyNewDeviceOnExistingDevice.isPending = false)
    (hdec : env.declineLoginOnExistingDevice.isPending = false)
    (hgc : goodClick true c = true) (hrest : rest ≠ []) :
    ∃ b : Bool,
      completions (legacyConnected cfg env (c :: rest) s) =
        completions s ++ [Event.completed b] := by
  cases c with
  | Approve => exact onceC_legacyApprove cfg env rest s hd ht ha hv hrest
  | Decline => exact onceC_legacyDecline env rest s hd hdec hrest
  | Cancel => simp [goodClick] at hgc
  | Back => simp [goodClick] at hgc

lemma onceC_legacyShowingQR (cfg : Config) (env : Env) (c : Click) (rest : List Click)
    (s : OrchState) (hd : s.disposed = false)
    (hst : env.startAfterShowingCode.isPending = false)
    (ht : env.requestLoginToken.isPending = false)
    (ha : env.approveLoginOnExistingDevice.isPending = false)
    (hv : env.verifyNewDeviceOnExistingDevice.isPending = false)
    (hdec : env.declineLoginOnExistingDevice.isPending = false)
    (hgc : goodClick true c = true) (hrest : rest ≠ []) :
    ∃ b : Bool,
      completions (legacyShowingQR cfg env (c :: rest) s) =
        completions s ++ [Event.completed b] := by
  cases hse : env.startAfterShowingCode with
  | pending => rw [hse] at hst; simp [Async.isPending] at hst
  | err e =>
    exact ⟨false, by
      simp [legacyShowingQR, hse, completions_dismissError, completions_errorOut,
        disposed_errorOut, hd]⟩
  | ok d =>
    obtain ⟨b, hb⟩ := onceC_legacyConnected cfg env c rest
      (setPhase s Phase.LegacyConnected) (by simp [disposed_setPhase, hd])
      ht ha hv hdec hgc hrest
    refine ⟨b, ?_⟩
    have h2 : legacyShowingQR cfg env (c :: rest) s =
        legacyConnected cfg env (c :: rest) (setPhase s Phase.LegacyConnected) := by
      simp [legacyShowingQR, hse]
    rw [h2, hb, completions_setPhase]

lemma onceC_legacyMount (cfg : Config) (env : Env) (c : Click) (rest : List Click)
    (s : OrchState) (hd : s.disposed = false)
    (hg : env.generateCode.isPending = false)
    (hst : env.startAfterShowingCode.isPending = false)
    (ht : env.requestLoginToken.isPending = false)
    (ha : env.approveLoginOnExistingDevice.isPending = false)
    (hv : env.verifyNewDeviceOnExistingDevice.isPending = false)
    (hdec : env.declineLoginOnExistingDevice.isPending = false)
    (hgc : goodClick true c = true) (hrest : rest ≠ []) :
    ∃ b : Bool,
      completions (legacyMount cfg env (c :: rest) s) =
        completions s ++ [Event.completed b] := by
  cases hge : env.generateCode with
  | pending => rw [hge] at hg; simp [Async.isPending] at hg
  | err e =>
    exact ⟨false, by
      simp [legacyMount, hge, completions_dismissError, completions_errorOut,
        completions_setPhase, disposed_errorOut, disposed_setPhase, hd]⟩
  | ok u =>
    obtain ⟨b, hb⟩ := onceC_legacyShowingQR cfg env c rest
      (emit (setPhase (setPhase s Phase.Loading) Phase.ShowingQR) (Event.codeShown env.code))
      (by simp [disposed_emit, disposed_setPhase, hd]) hst ht ha hv hdec hgc hrest
    refine ⟨b, ?_⟩
    have h2 : legacyMount cfg env (c :: rest) s =
        legacyShowingQR cfg env (c :: rest)
          (emit (setPhase (setPhase s Phase.Loading) Phase.ShowingQR)
            (Event.codeShown env.code)) := by
      simp [legacyMount, hge]
    rw [h2, hb, completions_emit _ (Event.codeShown env.code) rfl, completions_setPhase,
      completions_setPhase]

lemma onceC_modernWaitForSecrets (env : Env) (clicks : List Click) (s : OrchState)
    (hd : s.disposed = false)
    (hsh : env.shareSecrets.isPending = false) (hc : clicks ≠ []) :
    ∃ b : Bool,
      completions (modernWaitForSecrets env clicks s) =
        completions s ++ [Event.completed b] := by
  cases hse : env.shareSecrets with
  | pending => rw [hse] at hsh; simp [Async.isPending] at hsh
  | err e =>
    exact ⟨false, by
      simp [modernWaitForSecrets, hse, modernErrorOut, completions_dismissError,
        completions_errorOut, completions_emit, disposed_errorOut, disposed_emit,
        hd, hc, Event.isCompleted]⟩
  | ok u =>
    exact ⟨true, by
      simp [modernWaitForSecrets, hse, completions_finish, completions_emit,
        disposed_emit, hd, Event.isCompleted]⟩

lemma onceC_modernOutOfBand (env : Env) (c : Click) (rest : List Click)
    (uri : Option String) (s : OrchState) (hd : s.disposed = false)
    (hsh : env.shareSecrets.isPending = false)
    (hgc : goodClick false c = true) (hrest : rest ≠ []) :
    ∃ b : Bool,
      completions (modernOutOfBand env (c :: rest) uri s) =
        completions s ++ [Event.completed b] := by
  cases c with
  | Approve =>
    cases uri with
    | some u =>
      obtain ⟨b, hb⟩ := onceC_modernWaitForSecrets env rest
        (setPhase (emit s (Event.openedUri u)) Phase.WaitingForDevice)
        (by simp [disposed_setPhase, disposed_emit, hd]) hsh hrest
      refine ⟨b, ?_⟩
      have h2 : modernOutOfBand env (Click.Approve :: rest) (some u) s =
          modernWaitForSecrets env rest
            (setPhase (emit s (Event.openedUri u)) Phase.WaitingForDevice) := by
        simp [modernOutOfBand]
      rw [h2, hb, completions_setPhase, completions_emit _ (Event.openedUri u) rfl]
    | none =>
      obtain ⟨b, hb⟩ := onceC_modernWaitForSecrets env rest
        (setPhase s Phase.WaitingForDevice) (by simp [disposed_setPhase, hd]) hsh hrest
      refine ⟨b, ?_⟩
      have h2 : modernOutOfBand env (Click.Approve :: rest) none s =
          modernWaitForSecrets env rest (setPhase s Phase.WaitingForDevice) := by
        simp [modernOutOfBand]
      rw [h2, hb, completions_setPhase]
  | Decline => simp [goodClick] at hgc
  | Cancel =>
    exact ⟨false, by
      simp [modernOutOfBand, completions_finish, completions_emit, disposed_emit, hd,
        Event.isCompleted]⟩
  | Back => simp [goodClick] at hgc

lemma onceC_modernShowingQR (env : Env) (c : Click) (rest : List Click) (s : OrchState)
    (hd : s.disposed = false)
    (hn : env.negotiateProtocols.isPending = false)
    (hgr : env.deviceAuthorizationGrant.isPending = false)
    (hsh : env.shareSecrets.isPending = false)
    (hgc : goodClick false c = true) (hrest : rest ≠ []) :
    ∃ b : Bool,
      completions (modernShowingQR env (c :: rest) s) =
        completions s ++ [Event.completed b] := by
  cases hne : env.negotiateProtocols with
  | pending => rw [hne] at hn; simp [Async.isPending] at hn
  | err e =>
    exact ⟨false, by
      simp [modernShowingQR, hne, modernErrorOut, completions_dismissError,
        completions_errorOut, completions_emit, disposed_errorOut, disposed_emit,
        hd, Event.isCompleted]⟩
  | ok u =>
    cases hgre : env.deviceAuthorizationGrant with
    | pending => rw [hgre] at hgr; simp [Async.isPending] at hgr
    | err e =>
      exact ⟨false, by
        simp [modernShowingQR, hne, hgre, modernErrorOut, completions_dismissError,
          completions_errorOut, completions_emit, disposed_errorOut, disposed_emit,
          hd, Event.isCompleted]⟩
    | ok uri =>
      obtain ⟨b, hb⟩ := onceC_modernOutOfBand env c rest uri
        (setPhase s Phase.OutOfBandConfirmation) (by simp [disposed_setPhase, hd])
        hsh hgc hrest
      refine ⟨b, ?_⟩
      have h2 : modernShowingQR env (c :: rest) s =
          modernOutOfBand env (c :: rest) uri (setPhase s Phase.OutOfBandConfirmation) := by
        simp [modernShowingQR, hne, hgre]
      rw [h2, hb, completions_setPhase]

lemma onceC_modernMount (env : Env) (c : Click) (rest : List Click) (s : OrchState)
    (hd : s.disposed = false)
    (hg : env.generateCode.isPending = false)
    (hn : env.negotiateProtocols.isPending = false)
    (hgr : env.deviceAuthorizationGrant.isPending = false)
    (hsh : env.shareSecrets.isPending = false)
    (hgc : goodClick false c = true) (hrest : rest ≠ []) :
    ∃ b : Bool,
      completions (modernMount env (c :: rest) s) =
        completions s ++ [Event.completed b] := by
  cases hge : env.generateCode with
  | pending => rw [hge] at hg; simp [Async.isPending] at hg
  | err e =>
    exact ⟨false, by
      simp [modernMount, hge, completions_dismissError, completions_errorOut,
        completions_setPhase, disposed_errorOut, disposed_setPhase, hd]⟩
  | ok u =>
    obtain ⟨b, hb⟩ := onceC_modernShowingQR env c rest
      (setPhase (setPhase s Phase.Loading) Phase.ShowingQR)
      (by simp [disposed_setPhase, hd]) hn hgr hsh hgc hrest
    refine ⟨b, ?_⟩
    have h2 : modernMount env (c :: rest) s =
        modernShowingQR env (c :: rest)
          (setPhase (setPhase s Phase.Loading) Phase.ShowingQR) := by
      simp [modernMount, hge]
    rw [h2, hb, completions_setPhase, completions_setPhase]

/-- Claim C1: for every sign-in attempt in which each awaited operation
settles and the user supplies a click the current phase accepts (plus one
further click to dismiss a possible error screen), the completion callback
fires exactly once, with a single boolean — never both values and never zero
calls. -/
theorem completion_fires_exactly_once (cfg : Config) (env : Env) (c1 c2 : Click)
    (hs : envSettled env = true) (hgc : goodClick cfg.legacy c1 = true) :
    ∃ b : Bool, completions (runAttempt cfg env [c1, c2]) = [Event.completed b] := by
  have hset := hs
  simp only [envSettled, Bool.and_eq_true, Bool.not_eq_true'] at hset
  obtain ⟨⟨⟨⟨⟨⟨⟨⟨h1, h2⟩, h3⟩, h4⟩, h5⟩, h6⟩, h7⟩, h8⟩, h9⟩ := hset
  rcases cfg with ⟨l, cr⟩
  cases l with
  | false =>
    obtain ⟨b, hb⟩ := onceC_modernMount env c1 [c2] initState rfl h1 h7 h8 h9
      (by simpa using hgc) (by simp)
    exact ⟨b, by simpa [runAttempt, completions, initState] using hb⟩
  | true =>
    obtain ⟨b, hb⟩ := onceC_legacyMount ⟨true, cr⟩ env c1 [c2] initState rfl h1 h2 h3 h4 h5 h6
      (by simpa using hgc) (by simp)
    exact ⟨b, by simpa [runAttempt, completions, initState] using hb⟩

theorem completion_fires_exactly_once_witness :
    (envSettled wEnvOk = true ∧ goodClick (true : Bool) Click.Approve = true) ∧
    (∃ b : Bool,
      completions (runAttempt ⟨true, true⟩ wEnvOk [Click.Approve, Click.Back]) =
        [Event.completed b]) :=
  ⟨⟨rfl, rfl⟩,
   completion_fires_exactly_once ⟨true, true⟩ wEnvOk Click.Approve Click.Back rfl rfl⟩

end LoginWithQR
